import Mathlib

/-
Verification of the complex-analysis visualizers (series and coloring variants).

Shallow embedding conventions:
- C `double` is idealized as the exact real numbers `ℝ` (exact arithmetic, no
  rounding); `double complex` as `ℂ`.  The NaN/Infinity input guards of the C
  evaluators are vacuous in this idealization, since every value of `ℂ` is finite.
- Interaction-state scalars (center, scale, saturation, contrast) only ever go
  through field operations on decimal literals, so they are idealized as exact
  rationals `ℚ` to keep the state machine fully executable.
- C `for` loops that thread mutable accumulators are translated to structural
  recursion on a fuel argument equal to the number of remaining iterations.
- `1e100` is modelled as the exact real `10^100`, `1e-10` as `1/10^10`, the
  decimal literals `1.2` / `0.8` / `0.1` / `0.2` as the exact rationals they denote.
- `HUGE_VAL` (math.h) has no counterpart in `ℝ` (on IEC-60559 platforms it is
  positive infinity); it is modelled by an arbitrary large real constant below.
  No theorem in this file depends on its value.
-/

namespace ComplexViz

/-- Numeric blow-up guard bound of the series evaluators, the C literal `1e100`. -/
noncomputable def blowup_bound : ℝ := 10 ^ 100

/-- Pole-detection radius of the evaluators, the C literal `1e-10`. -/
noncomputable def pole_eps : ℝ := 1 / 10 ^ 10

/-- Placeholder for the math.h constant `HUGE_VAL`.  On IEC-60559 platforms
`HUGE_VAL` is positive infinity, which has no counterpart in `ℝ`; no theorem in
this file depends on the value chosen here (see the analysis of claim C2). -/
noncomputable def HUGE_VAL : ℝ := 10 ^ 308

/-- The sentinel value `HUGE_VAL + HUGE_VAL * I` returned by the evaluators on
overflow/pole detection. -/
noncomputable def huge_sentinel : ℂ := (HUGE_VAL : ℂ) + (HUGE_VAL : ℂ) * Complex.I

/-- One mouse-wheel zoom tick applied to `scale`:
`scale *= (wheel > 0) ? 1.2 : 0.8;` (src/series/main.c lines 432-436 and
src/coloring/main.c lines 649-653; `1.2 = 6/5` and `0.8 = 4/5` exactly). -/
def zoomStep (scale : ℚ) (wheel : ℚ) : ℚ :=
  if 0 < wheel then scale * (6 / 5) else scale * (4 / 5)

namespace SeriesViz

/-- The function catalog of src/series/main.c (lines 13-19). -/
inductive FunctionType where
  | FUNC_EXP
  | FUNC_SIN
  | FUNC_LOG
  | FUNC_INVERSE
deriving DecidableEq

/-- `eval_original_function` (src/series/main.c lines 59-95): the exact-function
evaluator, returning the value together with the `*error` flag.  The NaN/Infinity
input check (line 62) is vacuous over `ℂ`. -/
noncomputable def eval_original_function (z : ℂ) (type : FunctionType) : ℂ × Bool :=
  match type with
  | .FUNC_EXP =>
      if 700 < z.re then (huge_sentinel, true) else (Complex.exp z, false)
  | .FUNC_SIN => (Complex.sin z, false)
  | .FUNC_LOG =>
      if Complex.abs z < pole_eps then (huge_sentinel, true) else (Complex.log z, false)
  | .FUNC_INVERSE =>
      if Complex.abs z < pole_eps then (huge_sentinel, true) else (1 / z, false)

/-- The `FUNC_EXP` loop body of `eval_taylor_series` (src/series/main.c lines
109-124).  The first argument after `z` is the fuel (remaining iterations,
initially `terms + 1` since the loop runs `n = 0 .. terms`); then the loop
counter `n`, and the accumulators `sum`, `z_power`, `factorial`.  Each iteration
adds `z_power / factorial`, advances the running power and factorial, and then
returns `(sum, error=true)` if `cabs(z_power) > 1e100`. -/
noncomputable def expTaylorLoop (z : ℂ) : ℕ → ℕ → ℂ → ℂ → ℝ → ℂ × Bool
  | 0, _, sum, _, _ => (sum, false)
  | k + 1, n, sum, z_power, factorial =>
      if blowup_bound < Complex.abs (z_power * z) then
        (sum + z_power / (factorial : ℂ), true)
      else
        expTaylorLoop z k (n + 1) (sum + z_power / (factorial : ℂ)) (z_power * z)
          (factorial * (n + 1))

/-- The `n`-th term numerator of the sine Taylor loop:
`term = cpow(z, 2*n+1); if (n % 2 == 1) term = -term;` (lines 129-130).
`cpow` with a positive integer exponent is modelled as the iterated power. -/
def sinTerm (z : ℂ) (n : ℕ) : ℂ :=
  if n % 2 = 1 then -(z ^ (2 * n + 1)) else z ^ (2 * n + 1)

/-- The `FUNC_SIN` loop body of `eval_taylor_series` (src/series/main.c lines
126-144).  `denom`, computed there by an inner product loop over `1 .. 2n+1`,
equals `(2n+1)!`.  Note the guard `cabs(term) > 1e100` is checked only after
`sum += term / denom`, so a triggering term is part of the returned sum. -/
noncomputable def sinTaylorLoop (z : ℂ) : ℕ → ℕ → ℂ → ℂ × Bool
  | 0, _, sum => (sum, false)
  | k + 1, n, sum =>
      if blowup_bound < Complex.abs (sinTerm z n) then
        (sum + sinTerm z n / (((2 * n + 1).factorial : ℝ) : ℂ), true)
      else
        sinTaylorLoop z k (n + 1) (sum + sinTerm z n / (((2 * n + 1).factorial : ℝ) : ℂ))

/-- The `n`-th term of the logarithm Taylor loop (lines 156-158):
`sign * cpow(w, n) / n` with `w = z - 1` and `sign = (n % 2 == 1) ? 1.0 : -1.0`. -/
noncomputable def logTerm (z : ℂ) (n : ℕ) : ℂ :=
  (if n % 2 = 1 then (1 : ℂ) else -1) * (z - 1) ^ n / (n : ℂ)

/-- The `FUNC_LOG` loop body of `eval_taylor_series` (src/series/main.c lines
146-166); the loop runs `n = 1 .. terms`, and the blow-up guard on `cabs(term)`
is checked after `sum += term`. -/
noncomputable def logTaylorLoop (z : ℂ) : ℕ → ℕ → ℂ → ℂ × Bool
  | 0, _, sum => (sum, false)
  | k + 1, n, sum =>
      if blowup_bound < Complex.abs (logTerm z n) then
        (sum + logTerm z n, true)
      else
        logTaylorLoop z k (n + 1) (sum + logTerm z n)

/-- `eval_taylor_series` (src/series/main.c lines 97-179).  `terms` is the C
`int` argument, nonnegative in every call (`num_terms ∈ [1, MAX_TERMS]`), so it
is modelled as `ℕ`.  The NaN/Infinity input check (line 100) is vacuous over `ℂ`. -/
noncomputable def eval_taylor_series (z : ℂ) (type : FunctionType) (terms : ℕ) : ℂ × Bool :=
  match type with
  | .FUNC_EXP => expTaylorLoop z (terms + 1) 0 0 1 1
  | .FUNC_SIN => sinTaylorLoop z (terms + 1) 0 0
  | .FUNC_LOG =>
      if Complex.abs z < pole_eps then (huge_sentinel, true)
      else logTaylorLoop z terms 1 0
  | .FUNC_INVERSE =>
      if Complex.abs z < pole_eps then (huge_sentinel, true) else (1 / z, false)

/-- `eval_laurent_series` (src/series/main.c lines 181-216): delegates to the
Taylor evaluator for every tag other than `FUNC_INVERSE` / `FUNC_LOG` (line 189),
and for those two returns the exact function value (`clog(z)`, `1.0 / z`) after
the pole check.  The NaN/Infinity input check (line 184) is vacuous over `ℂ`. -/
noncomputable def eval_laurent_series (z : ℂ) (type : FunctionType) (terms : ℕ) : ℂ × Bool :=
  if type ≠ .FUNC_INVERSE ∧ type ≠ .FUNC_LOG then
    eval_taylor_series z type terms
  else
    match type with
    | .FUNC_LOG =>
        if Complex.abs z < pole_eps then (huge_sentinel, true) else (Complex.log z, false)
    | .FUNC_INVERSE =>
        if Complex.abs z < pole_eps then (huge_sentinel, true) else (1 / z, false)
    | t => eval_taylor_series z t terms

/-- `eval_original_adapter` (src/series/main.c lines 272-276): adapter giving
the exact-function evaluator the series-evaluator signature; `(void)terms`. -/
noncomputable def eval_original_adapter (z : ℂ) (type : FunctionType) (terms : ℤ) : ℂ × Bool :=
  eval_original_function z type

/-- Partial sum of the exponential Taylor series:
`expPartialSum z m = Σ_{n=0}^{m-1} z^n / n!`. -/
noncomputable def expPartialSum (z : ℂ) (m : ℕ) : ℂ :=
  ∑ n ∈ Finset.range m, z ^ n / (n.factorial : ℂ)

/-- Partial sum of the sine Taylor series:
`sinPartialSum z m = Σ_{n=0}^{m-1} (-1)^n z^(2n+1) / (2n+1)!`. -/
noncomputable def sinPartialSum (z : ℂ) (m : ℕ) : ℂ :=
  ∑ n ∈ Finset.range m, (-1) ^ n * z ^ (2 * n + 1) / (((2 * n + 1).factorial : ℝ) : ℂ)

/-- `MAX_TERMS` (src/series/main.c line 11). -/
def MAX_TERMS : ℤ := 20

/-- The KEY_UP transition on `num_terms` (src/series/main.c lines 474-477):
`if (params.num_terms < MAX_TERMS) params.num_terms++;`. -/
def termIncrement (n : ℤ) : ℤ :=
  if n < MAX_TERMS then n + 1 else n

/-- The KEY_DOWN transition on `num_terms` (src/series/main.c lines 479-482):
`if (params.num_terms > 1) params.num_terms--;`. -/
def termDecrement (n : ℤ) : ℤ :=
  if 1 < n then n - 1 else n

/-- The term-button transition on `num_terms` (src/series/main.c lines 437-440):
`params.num_terms = (params.num_terms % MAX_TERMS) + 1;` (C `%` on nonnegative
operands agrees with `Int.emod`). -/
def termButtonCycle (n : ℤ) : ℤ :=
  n % MAX_TERMS + 1

end SeriesViz

namespace ColoringViz

/-- The function catalog of the feature-complete coloring program
(src/coloring/main.c lines 353-362). -/
inductive FunctionType where
  | FUNC_EXP
  | FUNC_SIN
  | FUNC_TAN
  | FUNC_INVERSE
  | FUNC_SQUARE
  | FUNC_SQUARE_MINUS_ONE
  | FUNC_POLY5_MINUS_Z
deriving DecidableEq

/-- `Clamp` (src/coloring/main.c lines 347-351), over the idealized reals. -/
noncomputable def Clamp (value mn mx : ℝ) : ℝ :=
  if value < mn then mn else if mx < value then mx else value

/-- `Clamp` (same C function, lines 347-351) at the rational values used by the
interaction state machine (saturation / contrast-strength steps). -/
def ClampQ (value mn mx : ℚ) : ℚ :=
  if value < mn then mn else if mx < value then mx else value

/-- The brightness value computed inside `apply_brightness` (src/coloring/main.c
lines 390-398): the log-compressed magnitude shading, raised to the power `0.75`
when enhanced contrast is on, then clamped to `[0, 1]`. -/
noncomputable def brightness_of (enhanced_contrast : Bool) (contrast_strength magnitude : ℝ) : ℝ :=
  Clamp
    (if enhanced_contrast then
      (0.5 * (1 - 1 / (1 + Real.log (1 + magnitude * contrast_strength)))) ^ (0.75 : ℝ)
    else
      0.5 * (1 - 1 / (1 + Real.log (1 + magnitude)))) 0 1

/-- An RGBA color; channels are the C `unsigned char` components. -/
structure Color where
  r : ℕ
  g : ℕ
  b : ℕ
  a : ℕ
deriving DecidableEq

/-- `apply_brightness` (src/coloring/main.c lines 390-403): scales each channel
by the brightness; the `(unsigned char)` cast of the nonnegative product is the
floor. -/
noncomputable def apply_brightness (color : Color) (magnitude : ℝ)
    (enhanced_contrast : Bool) (contrast_strength : ℝ) : Color :=
  { color with
    r := (⌊(color.r : ℝ) * brightness_of enhanced_contrast contrast_strength magnitude⌋).toNat
    g := (⌊(color.g : ℝ) * brightness_of enhanced_contrast contrast_strength magnitude⌋).toNat
    b := (⌊(color.b : ℝ) * brightness_of enhanced_contrast contrast_strength magnitude⌋).toNat }

/-- `evaluate_function` (src/coloring/main.c lines 436-486).  The NaN/Infinity
input check (line 438) is vacuous over `ℂ`; `tan` is computed as
`csin(z)/ccos(z)` after the `|cos z|` pole check, exactly as in the source. -/
noncomputable def evaluate_function (z : ℂ) (type : FunctionType) : ℂ × Bool :=
  match type with
  | .FUNC_EXP =>
      if 700 < z.re then (huge_sentinel, true) else (Complex.exp z, false)
  | .FUNC_SIN => (Complex.sin z, false)
  | .FUNC_TAN =>
      if Complex.abs (Complex.cos z) < pole_eps then (huge_sentinel, true)
      else (Complex.sin z / Complex.cos z, false)
  | .FUNC_INVERSE =>
      if Complex.abs z < pole_eps then (huge_sentinel, true) else (1 / z, false)
  | .FUNC_SQUARE => (z * z, false)
  | .FUNC_SQUARE_MINUS_ONE => (z * z - 1, false)
  | .FUNC_POLY5_MINUS_Z => (z * z * (z * z) * z - z, false)

/-- Real part of the subsample point of pixel `(x, y)`, subsample `(sx, sy)`
(src/coloring/main.c lines 515-517):
`re = ((x + sx / aa) - W/2) / scale + centerX` with `W/2` the C integer division. -/
def sample_re (W aa : ℕ) (scale cX : ℚ) (x sx : ℕ) : ℚ :=
  ((x : ℚ) + (sx : ℚ) / (aa : ℚ) - ((W / 2 : ℕ) : ℚ)) / scale + cX

/-- Imaginary part of the subsample point (src/coloring/main.c lines 516-518):
`im = ((H/2 - y) - sy / aa) / scale + centerY`. -/
def sample_im (H aa : ℕ) (scale cY : ℚ) (y sy : ℕ) : ℚ :=
  (((H / 2 : ℕ) : ℚ) - (y : ℚ) - (sy : ℚ) / (aa : ℚ)) / scale + cY

/-- The `eval_error` flag of one subsample evaluation inside
`render_domain_coloring` (src/coloring/main.c lines 519-521). -/
noncomputable def sampleFails (type : FunctionType) (W H aa : ℕ) (scale cX cY : ℚ)
    (x y sx sy : ℕ) : Bool :=
  (evaluate_function
    ⟨((sample_re W aa scale cX x sx : ℚ) : ℝ), ((sample_im H aa scale cY y sy : ℚ) : ℝ)⟩
    type).2

/-- The final value of `error_count` in `render_domain_coloring`
(src/coloring/main.c lines 507-524): `error_count++` runs once per failing
subsample evaluation, so the loop nest is re-expressed as the equivalent sum of
per-subsample indicators (the iterations are independent). -/
noncomputable def render_error_count (type : FunctionType) (W H aa : ℕ)
    (scale cX cY : ℚ) : ℕ :=
  ∑ y ∈ Finset.range H, ∑ x ∈ Finset.range W, ∑ sy ∈ Finset.range aa, ∑ sx ∈ Finset.range aa,
    if sampleFails type W H aa scale cX cY x y sx sy = true then 1 else 0

/-- The number of pixels whose evaluation failed, counting each failing pixel
once regardless of the anti-aliasing level.  This follows the claim wording
"per-pixel evaluation failures", using the per-pixel failure
notion: a pixel fails when none of its subsamples succeeded (`valid_samples == 0`,
the sentinel-color condition of src/coloring/main.c lines 542-551). -/
noncomputable def pixel_failure_count (type : FunctionType) (W H aa : ℕ)
    (scale cX cY : ℚ) : ℕ :=
  ∑ y ∈ Finset.range H, ∑ x ∈ Finset.range W,
    if (∀ sy ∈ Finset.range aa, ∀ sx ∈ Finset.range aa,
        sampleFails type W H aa scale cX cY x y sx sy = true) then 1 else 0

/-- The number of pixels with at least one failing subsample: the other possible
reading of "per-pixel evaluation failures". -/
noncomputable def pixel_any_failure_count (type : FunctionType) (W H aa : ℕ)
    (scale cX cY : ℚ) : ℕ :=
  ∑ y ∈ Finset.range H, ∑ x ∈ Finset.range W,
    if (∃ sy ∈ Finset.range aa, ∃ sx ∈ Finset.range aa,
        sampleFails type W H aa scale cX cY x y sx sy = true) then 1 else 0

/-- The color written for pixel `(x, y)` by `render_domain_coloring`
(src/coloring/main.c lines 510-552).  The per-subsample color pipeline
(`phase_to_color_hsv` via the external collaborator `ColorFromHSV`,
`apply_brightness`, optional line overlays, lines 528-535) is abstracted as the
parameter `sampleColor`, the RGB triple a successful subsample adds to the
accumulators; the failure accounting this claim is about does not depend on it.
A pixel is the truncated average of its successful subsamples, or the magenta
sentinel `(255, 0, 255, 255)` when no subsample succeeded. -/
noncomputable def render_pixel (type : FunctionType) (W H aa : ℕ) (scale cX cY : ℚ)
    (sampleColor : ℚ → ℚ → ℝ × ℝ × ℝ) (x y : ℕ) : Color :=
  let ok : ℕ → ℕ → Bool := fun sx sy => !(sampleFails type W H aa scale cX cY x y sx sy)
  let valid : ℕ :=
    ∑ sy ∈ Finset.range aa, ∑ sx ∈ Finset.range aa, if ok sx sy = true then 1 else 0
  let rsum : ℝ :=
    ∑ sy ∈ Finset.range aa, ∑ sx ∈ Finset.range aa,
      if ok sx sy = true then
        (sampleColor (sample_re W aa scale cX x sx) (sample_im H aa scale cY y sy)).1
      else 0
  let gsum : ℝ :=
    ∑ sy ∈ Finset.range aa, ∑ sx ∈ Finset.range aa,
      if ok sx sy = true then
        (sampleColor (sample_re W aa scale cX x sx) (sample_im H aa scale cY y sy)).2.1
      else 0
  let bsum : ℝ :=
    ∑ sy ∈ Finset.range aa, ∑ sx ∈ Finset.range aa,
      if ok sx sy = true then
        (sampleColor (sample_re W aa scale cX x sx) (sample_im H aa scale cY y sy)).2.2
      else 0
  if 0 < valid then
    ⟨(⌊rsum / (valid : ℝ)⌋).toNat, (⌊gsum / (valid : ℝ)⌋).toNat,
      (⌊bsum / (valid : ℝ)⌋).toNat, 255⟩
  else
    ⟨255, 0, 255, 255⟩

/-- The observable outcome of one `render_domain_coloring` pass: the pixel
buffer (indexed `pixels x y`, `none` outside the `W × H` viewport), whether the
math-error status was reported, and the C return value. -/
structure RenderResult where
  pixels : ℕ → ℕ → Option Color
  math_error_reported : Bool
  returned : Bool

/-- `render_domain_coloring` (src/coloring/main.c lines 488-564) for a non-null
pixel buffer: every pixel of the viewport is written (the pixel loop has no
early exit), the math-error status is reported exactly when the final
`error_count` exceeds `1000` (line 555), and the function returns `true`. -/
noncomputable def render_domain_coloring (type : FunctionType) (W H aa : ℕ)
    (scale cX cY : ℚ) (sampleColor : ℚ → ℚ → ℝ × ℝ × ℝ) : RenderResult where
  pixels := fun x y =>
    if x < W ∧ y < H then some (render_pixel type W H aa scale cX cY sampleColor x y)
    else none
  math_error_reported := decide (1000 < render_error_count type W H aa scale cX cY)
  returned := true

/-- The interaction state of the coloring program: the locals of `main`
(src/coloring/main.c lines 599-612) mutated by the event handlers.
`line_thickness`, `saturation`, `value` and `contrast_strength` are carried for
completeness; `anti_aliasing` is the C `int`. -/
structure AppState where
  centerX : ℚ
  centerY : ℚ
  scale : ℚ
  show_phase_lines : Bool
  show_modulus_lines : Bool
  enhanced_contrast : Bool
  line_thickness : ℚ
  saturation : ℚ
  value : ℚ
  contrast_strength : ℚ
  anti_aliasing : ℤ
deriving DecidableEq

/-- The initial state (src/coloring/main.c lines 599-612). -/
def initState : AppState where
  centerX := 0
  centerY := 0
  scale := 100
  show_phase_lines := true
  show_modulus_lines := true
  enhanced_contrast := true
  line_thickness := 1 / 20
  saturation := 9 / 10
  value := 1
  contrast_strength := 1
  anti_aliasing := 1

/-- The discrete input events handled by the main loop of the coloring program
(src/coloring/main.c lines 641-725). -/
inductive Event where
  | pan (dx dy : ℚ)
  | zoom (wheel : ℚ)
  | togglePhase
  | toggleModulus
  | toggleContrast
  | cycleAA
  | satDown
  | satUp
  | contrastDown
  | contrastUp
  | reset

/-- One state-machine transition of the coloring program (src/coloring/main.c
lines 641-725; the reset handler is lines 675-684).  The zoom handler runs only
when `wheel != 0` (line 650). -/
def stepEvent (s : AppState) : Event → AppState
  | .pan dx dy => { s with centerX := s.centerX - dx / s.scale, centerY := s.centerY + dy / s.scale }
  | .zoom wheel => if wheel = 0 then s else { s with scale := zoomStep s.scale wheel }
  | .togglePhase => { s with show_phase_lines := !s.show_phase_lines }
  | .toggleModulus => { s with show_modulus_lines := !s.show_modulus_lines }
  | .toggleContrast => { s with enhanced_contrast := !s.enhanced_contrast }
  | .cycleAA =>
      { s with anti_aliasing :=
          if s.anti_aliasing = 1 then 2 else if s.anti_aliasing = 2 then 4 else 1 }
  | .satDown => { s with saturation := ClampQ (s.saturation - 1 / 10) 0 1 }
  | .satUp => { s with saturation := ClampQ (s.saturation + 1 / 10) 0 1 }
  | .contrastDown => { s with contrast_strength := ClampQ (s.contrast_strength - 1 / 5) (1 / 5) 5 }
  | .contrastUp => { s with contrast_strength := ClampQ (s.contrast_strength + 1 / 5) (1 / 5) 5 }
  | .reset =>
      { s with
        centerX := 0
        centerY := 0
        scale := 100
        show_phase_lines := true
        show_modulus_lines := true
        enhanced_contrast := true
        anti_aliasing := 1 }

/-- States reachable from the initial state by any sequence of transitions. -/
inductive Reachable : AppState → Prop where
  | init : Reachable initState
  | step : ∀ (s : AppState) (e : Event), Reachable s → Reachable (stepEvent s e)

end ColoringViz

/- ------------------------------------------------------------------ -/
/- Theorems.                                                           -/
/- ------------------------------------------------------------------ -/

namespace SeriesViz

/-- Claim C9: the Original-view evaluator is independent of the series term
count: for every complex `z`, every function tag, and every two term counts
`t1` and `t2`, `eval_original_adapter` returns exactly the same value and
failure flag; hence the Original view (and the left half of Split view) does
not change when only `num_terms` changes. -/
theorem eval_original_adapter_term_independent (z : ℂ) (type : FunctionType)
    (t1 t2 : ℤ) :
    eval_original_adapter z type t1 = eval_original_adapter z type t2 := rfl

/-- Claim C7: `num_terms` stays in `[1, MAX_TERMS]` under every transition that
modifies it (keyboard increment, keyboard decrement, term-button cycle); in
particular a decrement at `1` leaves `1` and an increment at `MAX_TERMS`
leaves `MAX_TERMS`. -/
theorem num_terms_clamped (n : ℤ) (h1 : 1 ≤ n) (h2 : n ≤ MAX_TERMS) :
    (1 ≤ termIncrement n ∧ termIncrement n ≤ MAX_TERMS) ∧
    (1 ≤ termDecrement n ∧ termDecrement n ≤ MAX_TERMS) ∧
    (1 ≤ termButtonCycle n ∧ termButtonCycle n ≤ MAX_TERMS) ∧
    termDecrement 1 = 1 ∧ termIncrement MAX_TERMS = MAX_TERMS := by
  simp only [termIncrement, termDecrement, termButtonCycle, MAX_TERMS] at h1 h2 ⊢
  split_ifs <;> omega

/-- Witness for C7 at the concrete term count `5`. -/
theorem num_terms_clamped_witness :
    (1 : ℤ) ≤ 5 ∧ (5 : ℤ) ≤ MAX_TERMS ∧
    ((1 ≤ termIncrement 5 ∧ termIncrement 5 ≤ MAX_TERMS) ∧
      (1 ≤ termDecrement 5 ∧ termDecrement 5 ≤ MAX_TERMS) ∧
      (1 ≤ termButtonCycle 5 ∧ termButtonCycle 5 ≤ MAX_TERMS) ∧
      termDecrement 1 = 1 ∧ termIncrement MAX_TERMS = MAX_TERMS) :=
  ⟨by decide, by decide, num_terms_clamped 5 (by decide) (by decide)⟩

/-- Claim C3: for the exponential and sine tags `eval_laurent_series` returns
exactly the same value and failure flag as `eval_taylor_series` (it delegates),
and for the logarithm and reciprocal tags with `|z| ≥ 1e-10` it returns the
exact function value (`log z`, resp. `1/z`) with failure `false` — a result
that does not depend on the term count. -/
theorem laurent_matches_taylor_and_exact (z : ℂ) (terms : ℕ) :
    eval_laurent_series z .FUNC_EXP terms = eval_taylor_series z .FUNC_EXP terms ∧
    eval_laurent_series z .FUNC_SIN terms = eval_taylor_series z .FUNC_SIN terms ∧
    (pole_eps ≤ Complex.abs z →
      eval_laurent_series z .FUNC_LOG terms = (Complex.log z, false) ∧
      eval_laurent_series z .FUNC_INVERSE terms = (1 / z, false)) := by
  refine ⟨rfl, rfl, fun h => ⟨?_, ?_⟩⟩ <;>
    simp [eval_laurent_series, not_lt.mpr h]

/-- Witness for C3 at `z = 1`, `terms = 3`. -/
theorem laurent_matches_taylor_and_exact_witness :
    pole_eps ≤ Complex.abs 1 ∧
    eval_laurent_series 1 .FUNC_LOG 3 = (Complex.log 1, false) ∧
    eval_laurent_series 1 .FUNC_INVERSE 3 = (1 / 1, false) := by
  have h : pole_eps ≤ Complex.abs 1 := by
    rw [map_one]
    norm_num [pole_eps]
  exact ⟨h, ((laurent_matches_taylor_and_exact 1 3).2.2 h).1,
    ((laurent_matches_taylor_and_exact 1 3).2.2 h).2⟩

/-- Adding the next exponential term to a partial sum. -/
theorem expPartialSum_succ (z : ℂ) (n : ℕ) :
    expPartialSum z n + z ^ n / ((n.factorial : ℝ) : ℂ) = expPartialSum z (n + 1) := by
  rw [expPartialSum, expPartialSum, Finset.sum_range_succ, Complex.ofReal_natCast]

/-- One unfolding of the exponential Taylor loop from its canonical state:
at counter `n` the accumulators are the partial sum through `n - 1`, the power
`z ^ n` and the factorial `n!`. -/
theorem expTaylorLoop_succ (z : ℂ) (k n : ℕ) :
    expTaylorLoop z (k + 1) n (expPartialSum z n) (z ^ n) (n.factorial : ℝ) =
      if blowup_bound < Complex.abs z ^ (n + 1) then (expPartialSum z (n + 1), true)
      else expTaylorLoop z k (n + 1) (expPartialSum z (n + 1)) (z ^ (n + 1))
        ((n + 1).factorial : ℝ) := by
  have hfac : (n.factorial : ℝ) * ((n : ℝ) + 1) = ((n + 1).factorial : ℝ) := by
    rw [Nat.factorial_succ]
    push_cast
    ring
  simp only [expTaylorLoop]
  rw [← pow_succ, map_pow, expPartialSum_succ, hfac]

/-- Loop invariant, no-trigger case: if the running power never exceeds the
blow-up bound during the remaining `k` iterations, the loop accumulates all of
them and reports no failure. -/
theorem expTaylorLoop_no_trigger (z : ℂ) (k : ℕ) : ∀ n : ℕ,
    (∀ j < k, Complex.abs z ^ (n + j + 1) ≤ blowup_bound) →
    expTaylorLoop z k n (expPartialSum z n) (z ^ n) (n.factorial : ℝ) =
      (expPartialSum z (n + k), false) := by
  induction k with
  | zero => intro n _; simp [expTaylorLoop]
  | succ k ih =>
      intro n h
      rw [expTaylorLoop_succ, if_neg (not_lt.mpr (by simpa using h 0 (by omega)))]
      have hrec := ih (n + 1) (fun j hj => by
        have e : n + 1 + j + 1 = n + (j + 1) + 1 := by omega
        rw [e]
        exact h (j + 1) (by omega))
      rw [hrec, show n + 1 + k = n + (k + 1) by omega]

/-- Loop invariant, failure case: if the loop reports failure, it stopped at
some iteration `m` in range, returned the partial sum through `m` (the power
`z ^ (m+1)` that triggered the guard contributes no term to it), and the guard
condition held for `z ^ (m+1)`. -/
theorem expTaylorLoop_error_char (z : ℂ) (k : ℕ) : ∀ n : ℕ,
    (expTaylorLoop z k n (expPartialSum z n) (z ^ n) (n.factorial : ℝ)).2 = true →
    ∃ m, n ≤ m ∧ m < n + k ∧
      expTaylorLoop z k n (expPartialSum z n) (z ^ n) (n.factorial : ℝ) =
        (expPartialSum z (m + 1), true) ∧
      blowup_bound < Complex.abs z ^ (m + 1) := by
  induction k with
  | zero => intro n he; simp [expTaylorLoop] at he
  | succ k ih =>
      intro n he
      rw [expTaylorLoop_succ] at he ⊢
      by_cases hg : blowup_bound < Complex.abs z ^ (n + 1)
      · rw [if_pos hg]
        exact ⟨n, le_rfl, by omega, rfl, hg⟩
      · rw [if_neg hg] at he ⊢
        obtain ⟨m, h1, h2, h3, h4⟩ := ih (n + 1) he
        exact ⟨m, by omega, by omega, h3, h4⟩

/-- The sine term numerator equals `(-1)^n z^(2n+1)`. -/
theorem sinTerm_eq (z : ℂ) (n : ℕ) : sinTerm z n = (-1) ^ n * z ^ (2 * n + 1) := by
  unfold sinTerm
  rcases Nat.even_or_odd n with he | ho
  · rw [if_neg (by rw [Nat.even_iff] at he; omega), Even.neg_one_pow he, one_mul]
  · rw [if_pos (Nat.odd_iff.mp ho), Odd.neg_one_pow ho]
    ring

/-- Adding the next sine term to a partial sum. -/
theorem sinPartialSum_succ (z : ℂ) (n : ℕ) :
    sinPartialSum z n + sinTerm z n / (((2 * n + 1).factorial : ℝ) : ℂ) =
      sinPartialSum z (n + 1) := by
  rw [sinPartialSum, sinPartialSum, Finset.sum_range_succ, sinTerm_eq]

/-- The magnitude tested by the sine blow-up guard is `|z|^(2n+1)`. -/
theorem abs_sinTerm (z : ℂ) (n : ℕ) :
    Complex.abs (sinTerm z n) = Complex.abs z ^ (2 * n + 1) := by
  rw [sinTerm_eq, map_mul, map_pow, map_pow]
  simp

/-- One unfolding of the sine Taylor loop from its canonical state. -/
theorem sinTaylorLoop_succ (z : ℂ) (k n : ℕ) :
    sinTaylorLoop z (k + 1) n (sinPartialSum z n) =
      if blowup_bound < Complex.abs z ^ (2 * n + 1) then (sinPartialSum z (n + 1), true)
      else sinTaylorLoop z k (n + 1) (sinPartialSum z (n + 1)) := by
  simp only [sinTaylorLoop]
  rw [abs_sinTerm, sinPartialSum_succ]

/-- Loop invariant, failure case for the sine loop: on failure the returned
value is the partial sum through the triggering index `m` itself — the
oversized term `(-1)^m z^(2m+1)/(2m+1)!` is already accumulated, because the
guard is checked after `sum += term / denom`. -/
theorem sinTaylorLoop_error_char (z : ℂ) (k : ℕ) : ∀ n : ℕ,
    (sinTaylorLoop z k n (sinPartialSum z n)).2 = true →
    ∃ m, n ≤ m ∧ m < n + k ∧
      sinTaylorLoop z k n (sinPartialSum z n) = (sinPartialSum z (m + 1), true) ∧
      blowup_bound < Complex.abs z ^ (2 * m + 1) := by
  induction k with
  | zero => intro n he; simp [sinTaylorLoop] at he
  | succ k ih =>
      intro n he
      rw [sinTaylorLoop_succ] at he ⊢
      by_cases hg : blowup_bound < Complex.abs z ^ (2 * n + 1)
      · rw [if_pos hg]
        exact ⟨n, le_rfl, by omega, rfl, hg⟩
      · rw [if_neg hg] at he ⊢
        obtain ⟨m, h1, h2, h3, h4⟩ := ih (n + 1) he
        exact ⟨m, by omega, by omega, h3, h4⟩

/-- The exponential Taylor evaluator starts the loop in its canonical state. -/
theorem eval_taylor_exp_init (z : ℂ) (N : ℕ) :
    eval_taylor_series z .FUNC_EXP N =
      expTaylorLoop z (N + 1) 0 (expPartialSum z 0) (z ^ 0) ((0 : ℕ).factorial : ℝ) := by
  simp [eval_taylor_series, expPartialSum]

/-- The sine Taylor evaluator starts the loop in its canonical state. -/
theorem eval_taylor_sin_init (z : ℂ) (N : ℕ) :
    eval_taylor_series z .FUNC_SIN N = sinTaylorLoop z (N + 1) 0 (sinPartialSum z 0) := by
  simp [eval_taylor_series, sinPartialSum]

/-- Claim C1: for every complex `z` and term count `N ≥ 1`, the exponential
Taylor evaluator returns the partial sum `Σ_{n=0}^{N} z^n / n!` with failure
`false` when the blow-up guard never triggers (the running power magnitude
`|z|^(n+1)` stays within `1e100` for every iteration `n ≤ N`); and when it
flags failure, the returned value is the partial sum `Σ_{n=0}^{m} z^n / n!`
for some `m ≤ N`. -/
theorem exp_taylor_series_spec (z : ℂ) (N : ℕ) (hN : 1 ≤ N) :
    ((∀ n ≤ N, Complex.abs z ^ (n + 1) ≤ blowup_bound) →
      eval_taylor_series z .FUNC_EXP N = (expPartialSum z (N + 1), false)) ∧
    ((eval_taylor_series z .FUNC_EXP N).2 = true →
      ∃ m ≤ N, (eval_taylor_series z .FUNC_EXP N).1 = expPartialSum z (m + 1)) := by
  constructor
  · intro h
    rw [eval_taylor_exp_init,
      expTaylorLoop_no_trigger z (N + 1) 0 (fun j hj => by simpa using h j (by omega))]
    norm_num
  · intro he
    rw [eval_taylor_exp_init] at he
    obtain ⟨m, _, h2, h3, _⟩ := expTaylorLoop_error_char z (N + 1) 0 he
    refine ⟨m, by omega, ?_⟩
    rw [eval_taylor_exp_init, h3]

/-- Witness for C1: the no-trigger case at `z = 0`, `N = 1`, and the failure
case at the real input `10^101`, `N = 1`. -/
theorem exp_taylor_series_spec_witness :
    (1 : ℕ) ≤ 1 ∧
    (∀ n ≤ 1, Complex.abs (0 : ℂ) ^ (n + 1) ≤ blowup_bound) ∧
    eval_taylor_series 0 .FUNC_EXP 1 = (expPartialSum 0 2, false) ∧
    (eval_taylor_series (((10 : ℝ) ^ 101 : ℝ) : ℂ) .FUNC_EXP 1).2 = true ∧
    (∃ m ≤ 1, (eval_taylor_series (((10 : ℝ) ^ 101 : ℝ) : ℂ) .FUNC_EXP 1).1 =
      expPartialSum (((10 : ℝ) ^ 101 : ℝ) : ℂ) (m + 1)) := by
  have hg : ∀ n ≤ 1, Complex.abs (0 : ℂ) ^ (n + 1) ≤ blowup_bound := by
    intro n _
    rw [map_zero, zero_pow (Nat.succ_ne_zero n)]
    unfold blowup_bound
    positivity
  have habs : Complex.abs (((10 : ℝ) ^ 101 : ℝ) : ℂ) = (10 : ℝ) ^ 101 := by
    rw [Complex.abs_ofReal, abs_of_pos (by positivity)]
  have hgt : blowup_bound < (10 : ℝ) ^ 101 := by
    unfold blowup_bound
    have hp : (0 : ℝ) < (10 : ℝ) ^ 100 := by positivity
    calc (10 : ℝ) ^ 100 = (10 : ℝ) ^ 100 * 1 := by ring
      _ < (10 : ℝ) ^ 100 * 10 := by nlinarith
      _ = (10 : ℝ) ^ 101 := by ring
  have he : (eval_taylor_series (((10 : ℝ) ^ 101 : ℝ) : ℂ) .FUNC_EXP 1).2 = true := by
    show (expTaylorLoop _ (1 + 1) 0 0 1 1).2 = true
    simp only [expTaylorLoop]
    rw [if_pos (by rw [one_mul, habs]; exact hgt)]
  exact ⟨le_rfl, hg, (exp_taylor_series_spec 0 1 le_rfl).1 hg, he,
    (exp_taylor_series_spec (((10 : ℝ) ^ 101 : ℝ) : ℂ) 1 le_rfl).2 he⟩

/-- Claim C10: for the sine tag, when the Taylor evaluator flags failure the
returned value is the partial sum through the triggering index `n` itself —
the oversized term (whose magnitude `|z|^(2n+1)` exceeded `1e100`) is
accumulated before the guard is checked — unlike the exponential case, where
the returned value is the partial sum through some `m` while the flagged power
is `z^(m+1)`, which contributes no term to that sum. -/
theorem sin_guard_includes_term_exp_excludes (z w : ℂ) (N M : ℕ)
    (hs : (eval_taylor_series z .FUNC_SIN N).2 = true)
    (he : (eval_taylor_series w .FUNC_EXP M).2 = true) :
    (∃ n ≤ N, eval_taylor_series z .FUNC_SIN N = (sinPartialSum z (n + 1), true) ∧
      blowup_bound < Complex.abs z ^ (2 * n + 1)) ∧
    (∃ m ≤ M, eval_taylor_series w .FUNC_EXP M = (expPartialSum w (m + 1), true) ∧
      blowup_bound < Complex.abs w ^ (m + 1)) := by
  constructor
  · rw [eval_taylor_sin_init] at hs ⊢
    obtain ⟨n, _, h2, h3, h4⟩ := sinTaylorLoop_error_char z (N + 1) 0 hs
    exact ⟨n, by omega, h3, h4⟩
  · rw [eval_taylor_exp_init] at he ⊢
    obtain ⟨m, _, h2, h3, h4⟩ := expTaylorLoop_error_char w (M + 1) 0 he
    exact ⟨m, by omega, h3, h4⟩

/-- Witness for C10 at the real input `z = w = 10^101` with `N = M = 0`. -/
theorem sin_guard_includes_term_exp_excludes_witness :
    (eval_taylor_series (((10 : ℝ) ^ 101 : ℝ) : ℂ) .FUNC_SIN 0).2 = true ∧
    (eval_taylor_series (((10 : ℝ) ^ 101 : ℝ) : ℂ) .FUNC_EXP 0).2 = true ∧
    ((∃ n ≤ 0, eval_taylor_series (((10 : ℝ) ^ 101 : ℝ) : ℂ) .FUNC_SIN 0 =
        (sinPartialSum (((10 : ℝ) ^ 101 : ℝ) : ℂ) (n + 1), true) ∧
      blowup_bound < Complex.abs (((10 : ℝ) ^ 101 : ℝ) : ℂ) ^ (2 * n + 1)) ∧
     (∃ m ≤ 0, eval_taylor_series (((10 : ℝ) ^ 101 : ℝ) : ℂ) .FUNC_EXP 0 =
        (expPartialSum (((10 : ℝ) ^ 101 : ℝ) : ℂ) (m + 1), true) ∧
      blowup_bound < Complex.abs (((10 : ℝ) ^ 101 : ℝ) : ℂ) ^ (m + 1))) := by
  have habs : Complex.abs (((10 : ℝ) ^ 101 : ℝ) : ℂ) = (10 : ℝ) ^ 101 := by
    rw [Complex.abs_ofReal, abs_of_pos (by positivity)]
  have hgt : blowup_bound < (10 : ℝ) ^ 101 := by
    unfold blowup_bound
    have hp : (0 : ℝ) < (10 : ℝ) ^ 100 := by positivity
    calc (10 : ℝ) ^ 100 = (10 : ℝ) ^ 100 * 1 := by ring
      _ < (10 : ℝ) ^ 100 * 10 := by nlinarith
      _ = (10 : ℝ) ^ 101 := by ring
  have hterm : Complex.abs (sinTerm (((10 : ℝ) ^ 101 : ℝ) : ℂ) 0) = (10 : ℝ) ^ 101 := by
    rw [abs_sinTerm, habs]
    norm_num
  have hs : (eval_taylor_series (((10 : ℝ) ^ 101 : ℝ) : ℂ) .FUNC_SIN 0).2 = true := by
    show (sinTaylorLoop _ (0 + 1) 0 0).2 = true
    simp only [Nat.zero_add, sinTaylorLoop]
    rw [if_pos (by rw [hterm]; exact hgt)]
  have he : (eval_taylor_series (((10 : ℝ) ^ 101 : ℝ) : ℂ) .FUNC_EXP 0).2 = true := by
    show (expTaylorLoop _ (0 + 1) 0 0 1 1).2 = true
    simp only [Nat.zero_add, expTaylorLoop]
    rw [if_pos (by rw [one_mul, habs]; exact hgt)]
  exact ⟨hs, he, sin_guard_includes_term_exp_excludes _ _ 0 0 hs he⟩

end SeriesViz

/-- Claim C4 counterexample: at scale `100`, one zoom-in tick followed by one
zoom-out tick yields `100 * (6/5) * (4/5) = 96`, which differs from the prior
scale by `4` — far beyond floating-point epsilon, so the composition does not
restore the scale. -/
theorem zoom_in_out_counterexample :
    zoomStep (zoomStep 100 1) (-1) = 96 ∧
    zoomStep (zoomStep 100 1) (-1) ≠ 100 ∧
    (1 : ℚ) / 2 ^ 20 < |zoomStep (zoomStep 100 1) (-1) - 100| := by
  have h96 : zoomStep (zoomStep 100 1) (-1) = 96 := by norm_num [zoomStep]
  refine ⟨h96, by rw [h96]; norm_num, ?_⟩
  rw [h96, show (96 : ℚ) - 100 = -4 by norm_num, abs_neg, abs_of_pos (by norm_num : (0 : ℚ) < 4)]
  norm_num

/-- Claim C4 (amended): a zoom-in tick multiplies the scale by `6/5` and a
zoom-out tick by `4/5`, so for every positive scale the composition multiplies
the scale by `24/25` — a 4% shrink — and never restores the prior value. -/
theorem zoom_in_out_shrinks (s : ℚ) (hs : 0 < s) :
    zoomStep (zoomStep s 1) (-1) = (24 / 25) * s ∧
    zoomStep (zoomStep s 1) (-1) ≠ s := by
  have h : zoomStep (zoomStep s 1) (-1) = (24 / 25) * s := by
    simp only [zoomStep]
    norm_num
    ring
  refine ⟨h, ?_⟩
  rw [h]
  intro heq
  have : s = 0 := by linarith
  exact absurd this (ne_of_gt hs)

/-- Witness for the amended C4 at scale `100`. -/
theorem zoom_in_out_shrinks_witness :
    (0 : ℚ) < 100 ∧
    (zoomStep (zoomStep 100 1) (-1) = (24 / 25) * 100 ∧
      zoomStep (zoomStep 100 1) (-1) ≠ 100) :=
  ⟨by decide, zoom_in_out_shrinks 100 (by decide)⟩

namespace ColoringViz

/-- Claim C8: from every reachable state, the single reset transition restores
`center = (0,0)`, `scale` to its initial default `100`, and all toggle fields
(phase lines, modulus lines, enhanced contrast, anti-alias level) to their
initial default values. -/
theorem reset_restores_defaults (s : AppState) (h : Reachable s) :
    (stepEvent s .reset).centerX = 0 ∧
    (stepEvent s .reset).centerY = 0 ∧
    (stepEvent s .reset).scale = initState.scale ∧ initState.scale = 100 ∧
    (stepEvent s .reset).show_phase_lines = initState.show_phase_lines ∧
    (stepEvent s .reset).show_modulus_lines = initState.show_modulus_lines ∧
    (stepEvent s .reset).enhanced_contrast = initState.enhanced_contrast ∧
    (stepEvent s .reset).anti_aliasing = initState.anti_aliasing := by
  simp [stepEvent, initState]

/-- Witness for C8 at a concrete reachable state: the state obtained from the
initial state by one zoom-in tick and a phase-line toggle. -/
theorem reset_restores_defaults_witness :
    Reachable (stepEvent (stepEvent initState (Event.zoom 1)) Event.togglePhase) ∧
    ((stepEvent (stepEvent (stepEvent initState (Event.zoom 1)) Event.togglePhase)
        Event.reset).centerX = 0 ∧
      (stepEvent (stepEvent (stepEvent initState (Event.zoom 1)) Event.togglePhase)
        Event.reset).centerY = 0 ∧
      (stepEvent (stepEvent (stepEvent initState (Event.zoom 1)) Event.togglePhase)
        Event.reset).scale = initState.scale ∧ initState.scale = 100 ∧
      (stepEvent (stepEvent (stepEvent initState (Event.zoom 1)) Event.togglePhase)
        Event.reset).show_phase_lines = initState.show_phase_lines ∧
      (stepEvent (stepEvent (stepEvent initState (Event.zoom 1)) Event.togglePhase)
        Event.reset).show_modulus_lines = initState.show_modulus_lines ∧
      (stepEvent (stepEvent (stepEvent initState (Event.zoom 1)) Event.togglePhase)
        Event.reset).enhanced_contrast = initState.enhanced_contrast ∧
      (stepEvent (stepEvent (stepEvent initState (Event.zoom 1)) Event.togglePhase)
        Event.reset).anti_aliasing = initState.anti_aliasing) :=
  ⟨Reachable.step _ _ (Reachable.step _ _ Reachable.init),
    reset_restores_defaults _ (Reachable.step _ _ (Reachable.step _ _ Reachable.init))⟩

/-- `Clamp` is monotone in its value argument. -/
theorem Clamp_mono {a b mn mx : ℝ} (hmn : mn ≤ mx) (h : a ≤ b) :
    Clamp a mn mx ≤ Clamp b mn mx := by
  unfold Clamp
  split_ifs <;> linarith

/-- Monotonicity of the log-compressed shading `0.5 * (1 - 1/(1 + ln (1 + a)))`. -/
theorem log_shade_mono {a b : ℝ} (ha : 0 ≤ a) (hab : a ≤ b) :
    0.5 * (1 - 1 / (1 + Real.log (1 + a))) ≤
      0.5 * (1 - 1 / (1 + Real.log (1 + b))) := by
  have hla : 0 ≤ Real.log (1 + a) := Real.log_nonneg (by linarith)
  have hlb : 0 ≤ Real.log (1 + b) := Real.log_nonneg (by linarith)
  have hlog : Real.log (1 + a) ≤ Real.log (1 + b) :=
    Real.log_le_log (by linarith) (by linarith)
  have hd : 1 / (1 + Real.log (1 + b)) ≤ 1 / (1 + Real.log (1 + a)) :=
    one_div_le_one_div_of_le (by linarith) (by linarith)
  linarith

/-- Nonnegativity of the log-compressed shading. -/
theorem log_shade_nonneg {a : ℝ} (ha : 0 ≤ a) :
    0 ≤ 0.5 * (1 - 1 / (1 + Real.log (1 + a))) := by
  have hla : 0 ≤ Real.log (1 + a) := Real.log_nonneg (by linarith)
  have h1 : 1 / (1 + Real.log (1 + a)) ≤ 1 := by
    rw [div_le_one (by linarith)]
    linarith
  linarith

/-- Claim C6: for every fixed contrast-strength setting `k ≥ 0` and magnitudes
`0 ≤ m1 ≤ m2`, the brightness computed by `apply_brightness` is monotonically
non-decreasing in the magnitude, with or without the enhanced-contrast power
adjustment. -/
theorem brightness_monotone (e : Bool) (k m1 m2 : ℝ)
    (hk : 0 ≤ k) (hm : 0 ≤ m1) (h12 : m1 ≤ m2) :
    brightness_of e k m1 ≤ brightness_of e k m2 := by
  unfold brightness_of
  apply Clamp_mono (by norm_num)
  cases e with
  | false => simpa using log_shade_mono hm h12
  | true =>
      simp only [if_true]
      exact Real.rpow_le_rpow (log_shade_nonneg (mul_nonneg hm hk))
        (log_shade_mono (mul_nonneg hm hk) (mul_le_mul_of_nonneg_right h12 hk))
        (by norm_num)

/-- Witness for C6 at `k = 1`, `m1 = 0`, `m2 = 1`, enhanced contrast on. -/
theorem brightness_monotone_witness :
    (0 : ℝ) ≤ 1 ∧ (0 : ℝ) ≤ 0 ∧ (0 : ℝ) ≤ 1 ∧
    brightness_of true 1 0 ≤ brightness_of true 1 1 :=
  ⟨by norm_num, le_refl 0, by norm_num,
    brightness_monotone true 1 0 1 (by norm_num) le_rfl (by norm_num)⟩

/-- For the exponential tag, a subsample evaluation fails exactly when the real
part of its sample point exceeds 700. -/
theorem sampleFails_exp_iff (W H aa : ℕ) (scale cX cY : ℚ) (x y sx sy : ℕ) :
    sampleFails .FUNC_EXP W H aa scale cX cY x y sx sy = true ↔
      (700 : ℚ) < sample_re W aa scale cX x sx := by
  unfold sampleFails evaluate_function
  dsimp only
  by_cases h : (700 : ℝ) < ((sample_re W aa scale cX x sx : ℚ) : ℝ)
  · rw [if_pos h]
    exact iff_of_true rfl (by exact_mod_cast h)
  · rw [if_neg h]
    exact iff_of_false (by simp) (fun hq => h (by exact_mod_cast hq))

/-- In the C5 counterexample configuration (exponential tag, 800×800 viewport,
anti-alias level 2, scale 1, center `(1203/4, 0)`), a subsample fails exactly
when it is the right subsample of the last pixel column: `x = 799` and `sx = 1`. -/
theorem sampleFails_exp_cex_char (x y sx sy : ℕ) (hx : x < 800) (hsx : sx < 2) :
    sampleFails .FUNC_EXP 800 800 2 1 (1203 / 4) 0 x y sx sy = true ↔
      x = 799 ∧ sx = 1 := by
  rw [sampleFails_exp_iff]
  have e : sample_re 800 2 1 (1203 / 4) x sx = (x : ℚ) + (sx : ℚ) / 2 - 397 / 4 := by
    unfold sample_re
    norm_num
    ring
  rw [e]
  have hxq : (x : ℚ) ≤ 799 := by exact_mod_cast Nat.lt_succ_iff.mp hx
  have hsxq : (sx : ℚ) ≤ 1 := by exact_mod_cast Nat.lt_succ_iff.mp hsx
  constructor
  · intro h
    have hx9 : 798 < x := by
      have h798 : (798 : ℚ) < (x : ℚ) := by linarith
      exact_mod_cast h798
    have hx799 : x = 799 := by omega
    subst hx799
    refine ⟨rfl, ?_⟩
    have hsx0 : (0 : ℚ) < (sx : ℚ) := by
      push_cast at h
      linarith
    have : 0 < sx := by exact_mod_cast hsx0
    omega
  · rintro ⟨rfl, rfl⟩
    push_cast
    norm_num

/-- In the C5 counterexample configuration the per-subsample failure count is
`800 · 2 = 1600`: the failing half-plane `Re z > 700` cuts through pixel column
799 between its two horizontal subsamples. -/
theorem render_error_count_cex :
    render_error_count .FUNC_EXP 800 800 2 1 (1203 / 4) 0 = 1600 := by
  unfold render_error_count
  have h1 : (∑ y ∈ Finset.range 800, ∑ x ∈ Finset.range 800, ∑ sy ∈ Finset.range 2,
      ∑ sx ∈ Finset.range 2,
        if sampleFails .FUNC_EXP 800 800 2 1 (1203 / 4) 0 x y sx sy = true then 1 else 0) =
      ∑ y ∈ Finset.range 800, ∑ x ∈ Finset.range 800, ∑ sy ∈ Finset.range 2,
        ∑ sx ∈ Finset.range 2, if x = 799 ∧ sx = 1 then 1 else 0 := by
    refine Finset.sum_congr rfl fun y hy => Finset.sum_congr rfl fun x hx =>
      Finset.sum_congr rfl fun sy hsy => Finset.sum_congr rfl fun sx hsx => ?_
    exact if_congr
      (sampleFails_exp_cex_char x y sx sy (Finset.mem_range.mp hx) (Finset.mem_range.mp hsx))
      rfl rfl
  rw [h1]
  have h2 : ∀ x : ℕ, (∑ sx ∈ Finset.range 2, if x = 799 ∧ sx = 1 then (1 : ℕ) else 0) =
      if x = 799 then 1 else 0 := by
    intro x
    rw [Finset.sum_range_succ, Finset.sum_range_succ, Finset.sum_range_zero]
    by_cases hx : x = 799 <;> simp [hx]
  have h3 : (∑ x ∈ Finset.range 800, ∑ sy ∈ Finset.range 2,
      ∑ sx ∈ Finset.range 2, if x = 799 ∧ sx = 1 then (1 : ℕ) else 0) = 2 := by
    have h4 : (∑ x ∈ Finset.range 800, ∑ sy ∈ Finset.range 2,
        ∑ sx ∈ Finset.range 2, if x = 799 ∧ sx = 1 then (1 : ℕ) else 0) =
        ∑ x ∈ Finset.range 800, if x = 799 then 2 else 0 := by
      refine Finset.sum_congr rfl fun x hx => ?_
      rw [Finset.sum_congr rfl fun sy _ => h2 x, Finset.sum_const, Finset.card_range,
        smul_eq_mul]
      by_cases hx9 : x = 799 <;> simp [hx9]
    rw [h4, Finset.sum_ite_eq' (Finset.range 800) 799 fun _ => (2 : ℕ)]
    norm_num
  rw [Finset.sum_congr rfl fun y _ => h3, Finset.sum_const, Finset.card_range, smul_eq_mul]

/-- In the C5 counterexample configuration no pixel fails outright: the left
subsample of every pixel succeeds, so `valid_samples` is never zero. -/
theorem pixel_failure_count_cex :
    pixel_failure_count .FUNC_EXP 800 800 2 1 (1203 / 4) 0 = 0 := by
  unfold pixel_failure_count
  refine Finset.sum_eq_zero fun y hy => Finset.sum_eq_zero fun x hx => ?_
  rw [if_neg]
  intro hall
  have h0 := hall 0 (by norm_num) 0 (by norm_num)
  rw [sampleFails_exp_cex_char x y 0 0 (Finset.mem_range.mp hx) (by norm_num)] at h0
  exact absurd h0.2 (by norm_num)

/-- In the C5 counterexample configuration exactly the 800 pixels of column 799
have a failing subsample. -/
theorem pixel_any_failure_count_cex :
    pixel_any_failure_count .FUNC_EXP 800 800 2 1 (1203 / 4) 0 = 800 := by
  unfold pixel_any_failure_count
  have hcond : ∀ y x : ℕ, x < 800 →
      ((∃ sy ∈ Finset.range 2, ∃ sx ∈ Finset.range 2,
        sampleFails .FUNC_EXP 800 800 2 1 (1203 / 4) 0 x y sx sy = true) ↔ x = 799) := by
    intro y x hx
    constructor
    · rintro ⟨sy, hsy, sx, hsx, hf⟩
      exact ((sampleFails_exp_cex_char x y sx sy hx (Finset.mem_range.mp hsx)).mp hf).1
    · rintro rfl
      exact ⟨0, by norm_num, 1, by norm_num,
        (sampleFails_exp_cex_char 799 y 1 0 (by norm_num) (by norm_num)).mpr ⟨rfl, rfl⟩⟩
  have h1 : (∑ y ∈ Finset.range 800, ∑ x ∈ Finset.range 800,
      if (∃ sy ∈ Finset.range 2, ∃ sx ∈ Finset.range 2,
        sampleFails .FUNC_EXP 800 800 2 1 (1203 / 4) 0 x y sx sy = true) then (1 : ℕ) else 0) =
      ∑ y ∈ Finset.range 800, ∑ x ∈ Finset.range 800, if x = 799 then 1 else 0 := by
    refine Finset.sum_congr rfl fun y hy => Finset.sum_congr rfl fun x hx => ?_
    exact if_congr (hcond y x (Finset.mem_range.mp hx)) rfl rfl
  rw [h1]
  have h2 : (∑ x ∈ Finset.range 800, if x = 799 then (1 : ℕ) else 0) = 1 := by
    rw [Finset.sum_ite_eq' (Finset.range 800) 799 fun _ => (1 : ℕ)]
    norm_num
  rw [Finset.sum_congr rfl fun y _ => h2, Finset.sum_const, Finset.card_range, smul_eq_mul]

/-- Claim C5 counterexample: a render pass (exponential tag, anti-alias level 2,
scale 1, center `(1203/4, 0)`) in which the count compared against the
threshold is `1600` — the per-subsample failures — while the per-pixel failure
count is `0` (no pixel lost all its subsamples; `800` pixels lost one), so the
math-error status is reported even though no per-pixel count exceeds 1000. -/
theorem render_failure_count_counterexample :
    render_error_count .FUNC_EXP 800 800 2 1 (1203 / 4) 0 = 1600 ∧
    pixel_failure_count .FUNC_EXP 800 800 2 1 (1203 / 4) 0 = 0 ∧
    pixel_any_failure_count .FUNC_EXP 800 800 2 1 (1203 / 4) 0 = 800 ∧
    (render_domain_coloring .FUNC_EXP 800 800 2 1 (1203 / 4) 0
      fun _ _ => (0, 0, 0)).math_error_reported = true ∧
    ¬ 1000 < pixel_failure_count .FUNC_EXP 800 800 2 1 (1203 / 4) 0 ∧
    ¬ 1000 < pixel_any_failure_count .FUNC_EXP 800 800 2 1 (1203 / 4) 0 := by
  refine ⟨render_error_count_cex, pixel_failure_count_cex, pixel_any_failure_count_cex,
    ?_, ?_, ?_⟩
  · simp only [render_domain_coloring]
    rw [render_error_count_cex]
    decide
  · rw [pixel_failure_count_cex]
    norm_num
  · rw [pixel_any_failure_count_cex]
    norm_num

/-- Claim C5 (amended): the count `render_domain_coloring` compares against the
threshold 1000 is the number of per-subsample evaluation failures — it
coincides with the per-pixel failure count only at anti-aliasing level 1 — and
exceeding the threshold sets the math-error status without aborting: every
pixel of the viewport is still written and the pass returns true. -/
theorem render_failure_accounting (type : FunctionType) (W H aa : ℕ)
    (scale cX cY : ℚ) (sampleColor : ℚ → ℚ → ℝ × ℝ × ℝ) (x y : ℕ)
    (hx : x < W) (hy : y < H) :
    ((render_domain_coloring type W H aa scale cX cY sampleColor).math_error_reported = true ↔
      1000 < render_error_count type W H aa scale cX cY) ∧
    render_error_count type W H 1 scale cX cY = pixel_failure_count type W H 1 scale cX cY ∧
    (render_domain_coloring type W H aa scale cX cY sampleColor).pixels x y =
      some (render_pixel type W H aa scale cX cY sampleColor x y) ∧
    (render_domain_coloring type W H aa scale cX cY sampleColor).returned = true := by
  refine ⟨by simp [render_domain_coloring], ?_, by simp [render_domain_coloring, hx, hy], rfl⟩
  unfold render_error_count pixel_failure_count
  refine Finset.sum_congr rfl fun py hpy => Finset.sum_congr rfl fun px hpx => ?_
  rw [Finset.sum_range_one, Finset.sum_range_one]
  refine if_congr ?_ rfl rfl
  constructor
  · intro h sy hsy sx hsx
    have hsy0 : sy = 0 := Nat.lt_one_iff.mp (Finset.mem_range.mp hsy)
    have hsx0 : sx = 0 := Nat.lt_one_iff.mp (Finset.mem_range.mp hsx)
    subst hsy0
    subst hsx0
    exact h
  · intro h
    exact h 0 (by norm_num) 0 (by norm_num)

/-- Witness for the amended C5 at a concrete 1×1 viewport with the square
function (which never fails), anti-alias level 1. -/
theorem render_failure_accounting_witness :
    (0 : ℕ) < 1 ∧
    (((render_domain_coloring .FUNC_SQUARE 1 1 1 1 0 0
        fun _ _ => (0, 0, 0)).math_error_reported = true ↔
      1000 < render_error_count .FUNC_SQUARE 1 1 1 1 0 0) ∧
    render_error_count .FUNC_SQUARE 1 1 1 1 0 0 =
      pixel_failure_count .FUNC_SQUARE 1 1 1 1 0 0 ∧
    (render_domain_coloring .FUNC_SQUARE 1 1 1 1 0 0
        fun _ _ => (0, 0, 0)).pixels 0 0 =
      some (render_pixel .FUNC_SQUARE 1 1 1 1 0 0 (fun _ _ => (0, 0, 0)) 0 0) ∧
    (render_domain_coloring .FUNC_SQUARE 1 1 1 1 0 0
        fun _ _ => (0, 0, 0)).returned = true) :=
  ⟨by norm_num,
    render_failure_accounting .FUNC_SQUARE 1 1 1 1 0 0 (fun _ _ => (0, 0, 0)) 0 0
      (by norm_num) (by norm_num)⟩

end ColoringViz

end ComplexViz
